import Mathlib

/-!
Verification development for the mattori-home infrared pipeline.

Shallow embedding of:
- the AEHA protocol codec (src/src/ir/format/aeha.rs, src/src/ir/types.rs),
- the Sanyo appliance controller (mattori-home-peripherals/src/ir/sanyo.rs,
  mattori-home-peripherals/src/ir/sanyo/types.rs),
- the capture debounce/normalize stages (src/src/ir/input.rs).

Pulse durations (`IrPulse(u128)`) are embedded as `Nat`; byte values (`u8`)
are embedded as `Nat` (all arithmetic performed on them in the embedded code
stays below 256, which is proved where it matters).
-/

namespace Aeha

/-- The `IrFormat::STD_CYCLE` for Aeha (425 microseconds). -/
def STD_CYCLE : Nat := 425

/-- The `IrFormat::WAIT_LENGTH` (10000 microseconds). -/
def WAIT_LENGTH : Nat := 10000

/-- The `in_bounds` from src/src/ir/types.rs (and mattori-home-peripherals/src/ir/types.rs):
`length > target * (1 - 0.35) && length < target * (1 + 0.35)`.
The source computes the two bounds in `f64`; here the comparison is carried out
exactly over the rationals, scaled by 20: `length > target * 13/20` iff
`20 * length > 13 * target`, and `length < target * 27/20` iff
`20 * length < 27 * target`.  For the integer pulse values the code compares,
this agrees with the `f64` computation: the floating-point bounds differ from
the exact rational bounds by far less than the distance from any integer. -/
def in_bounds (length target : Nat) : Bool :=
  decide (13 * target < 20 * length) && decide (20 * length < 27 * target)

/-- The `IrFormat::in_bounds(pulse, cycles)`: pulse within tolerance of
`STD_CYCLE * cycles`. -/
def inBoundsCycles (pulse cycles : Nat) : Bool :=
  in_bounds pulse (STD_CYCLE * cycles)

/-- The `Aeha::verify_leader`: mark within tolerance of 8 cycles, space of 4 cycles. -/
def verify_leader (p1 p2 : Nat) : Bool :=
  inBoundsCycles p1 8 && inBoundsCycles p2 4

/-- The `Aeha::verify_repeat`: mark within tolerance of 8 cycles, space of 8 cycles. -/
def verify_repeat (p1 p2 : Nat) : Bool :=
  inBoundsCycles p1 8 && inBoundsCycles p2 8

/-- The `IrDecodeError` (the decode-error enum used by src/src/ir/format/aeha.rs;
its variants are those of `IrFormatError` in src/src/ir/types.rs). -/
inductive IrDecodeError where
  | tooShort
  | evenInputs
  | oddEnd
  | unknownEnd
  | invalidBits
  | unknownBit
  | unexpectedEnd
deriving DecidableEq, Repr

/-- The `IrEncodeError` from src/src/ir/types.rs. -/
inductive IrEncodeError where
  | emptyFrame
deriving DecidableEq, Repr

/-- The local `DecodeState` struct inside `Aeha::decode`. -/
structure DecodeState where
  frames : List (List Nat)
  byte_list : List Nat
  byte : Nat
  bit_counter : Nat
  end_of_frame : Bool
deriving DecidableEq, Repr

/-- The local `DecodeStep` enum inside `Aeha::decode`. -/
inductive DecodeStep where
  | error (e : IrDecodeError)
  | cont (s : DecodeState)
  | finished (frames : List (List Nat))
deriving DecidableEq, Repr

/-- The bit-accumulation step shared by the bit-0 and bit-1 branches of
`Aeha::decode`: add `add` to the partial byte (`0` for a 0 bit,
`1 << bit_counter` for a 1 bit), advance `bit_counter` mod 8, and when it
wraps to 0 close the byte into `byte_list`. -/
def push_bit (state : DecodeState) (add : Nat) : DecodeState :=
  let byte := state.byte + add
  let bc := (state.bit_counter + 1) % 8
  if bc = 0 then
    { state with byte_list := state.byte_list ++ [byte], byte := 0, bit_counter := bc }
  else
    { state with byte := byte, bit_counter := bc }

/-- One iteration of the fold inside `Aeha::decode`, acting on a
`(mark, optional space)` chunk. -/
def decode_step (step : DecodeStep) (pulses : Nat × Option Nat) : DecodeStep :=
  match step with
  | .error e => .error e
  | .finished f => .finished f
  | .cont state =>
    if state.end_of_frame then
      match pulses with
      | (p1, some p2) =>
        if verify_leader p1 p2 || verify_repeat p1 p2 then .cont state
        else .error .unknownEnd
      | (_, none) => .error .oddEnd
    else
      match pulses with
      | (p1, some p2) =>
        if inBoundsCycles p1 1 then
          -- long gap after stop means next frame
          if p2 > WAIT_LENGTH / 2 then
            .cont { state with
                      frames := state.frames ++ [state.byte_list],
                      byte_list := [],
                      byte := 0,
                      end_of_frame := true }
          else if inBoundsCycles p2 1 then
            .cont (push_bit state 0)
          else if inBoundsCycles p2 3 then
            .cont (push_bit state (1 <<< state.bit_counter))
          else
            .error .unknownBit
        else
          .error .unknownBit
      | (p1, none) =>
        -- stop length + bit counter = byte length
        if inBoundsCycles p1 1 && state.bit_counter == 0 then
          .finished (state.frames ++ [state.byte_list])
        else
          .error .invalidBits

/-- The fold of `decode_step` over the 2-chunks of the pulse list (the
`chunks(2)` iteration of `Aeha::decode`); a trailing singleton chunk becomes a
`(mark, none)` pair. -/
def decode_run (step : DecodeStep) : List Nat → DecodeStep
  | [] => step
  | [p] => decode_step step (p, none)
  | p1 :: p2 :: rest => decode_run (decode_step step (p1, some p2)) rest

/-- The initial `DecodeState` of the fold in `Aeha::decode`. -/
def initState : DecodeState :=
  { frames := [], byte_list := [], byte := 0, bit_counter := 0, end_of_frame := false }

/-- The `Aeha::decode` from src/src/ir/format/aeha.rs: length checks, then the fold
over the 2-chunks with the first chunk skipped (`.skip(1)` - hence the
`data.drop 2`). -/
def decode (data : List Nat) : Except IrDecodeError (List (List Nat)) :=
  if data.length < 10 then .error .tooShort
  else if data.length % 2 == 0 then .error .evenInputs
  else
    match decode_run (.cont initState) (data.drop 2) with
    | .finished r => .ok r
    | .error e => .error e
    | .cont _ => .error .unexpectedEnd

/-- The inner bit loop of `Aeha::encode` (`for _ in 0..8`), emitting `count`
bits of `b` LSB-first: mark of one cycle, then a space of one cycle for a
0 bit or three cycles for a 1 bit (`bits & 1`, `bits >>= 1` embedded as
`% 2` and `/ 2`). -/
def encode_bits (b : Nat) : Nat → List Nat
  | 0 => []
  | count + 1 =>
    STD_CYCLE :: (if b % 2 == 0 then STD_CYCLE else STD_CYCLE * 3)
      :: encode_bits (b / 2) count

/-- The pulses `Aeha::encode` emits for one byte (eight iterations of the
bit loop). -/
def encode_byte (b : Nat) : List Nat := encode_bits b 8

/-- The fold inside `Aeha::encode`, carrying the accumulated pulse list and
the `is_first` flag.  The Rust fold keeps an `Err` unchanged over the
remaining frames; returning the error immediately yields the same result. -/
def encode_go : List (List Nat) → List Nat → Bool → Except IrEncodeError (List Nat)
  | [], code, _ => .ok code
  | bs :: rest, code, first =>
    if bs.isEmpty then .error .emptyFrame
    else
      encode_go rest
        (code ++ (if first then [WAIT_LENGTH] else [])
              ++ [STD_CYCLE * 8, STD_CYCLE * 4]
              ++ bs.flatMap encode_byte
              ++ [STD_CYCLE])
        false

/-- The `Aeha::encode` from src/src/ir/format/aeha.rs. -/
def encode (frames : List (List Nat)) : Except IrEncodeError (List Nat) :=
  encode_go frames [] true

end Aeha

namespace SanyoIr

/-- The `ACMode` from mattori-home-peripherals/src/ir/types.rs. -/
inductive ACMode where
  | auto
  | warm
  | dry
  | cool
  | fan
deriving DecidableEq, Repr

/-- The `SanyoTemperatureCode` from mattori-home-peripherals/src/ir/sanyo/types.rs:
the 15-position temperature ladder. `Ord` is derived, matching the Rust
`derive(Ord)` declaration-order comparison (T16 < T17 < ... < T30). -/
inductive SanyoTemperatureCode where
  | t16 | t17 | t18 | t19 | t20 | t21 | t22 | t23
  | t24 | t25 | t26 | t27 | t28 | t29 | t30
deriving DecidableEq, Repr, Ord

/-- The `SanyoTrigger` from mattori-home-peripherals/src/ir/sanyo/types.rs. -/
inductive SanyoTrigger where
  | up
  | down
  | on
  | off
deriving DecidableEq, Repr

namespace SanyoTemperatureCode

/-- The `u8::from(&SanyoTemperatureCode)`: the degree value 16..30. -/
def toU8 : SanyoTemperatureCode → Nat
  | .t16 => 16 | .t17 => 17 | .t18 => 18 | .t19 => 19 | .t20 => 20
  | .t21 => 21 | .t22 => 22 | .t23 => 23 | .t24 => 24 | .t25 => 25
  | .t26 => 26 | .t27 => 27 | .t28 => 28 | .t29 => 29 | .t30 => 30

/-- The `SanyoTemperatureCode::ind`: `u8::from(self) - 16`. -/
def ind (c : SanyoTemperatureCode) : Nat := c.toU8 - 16

/-- The `SanyoTemperatureCode::down`: one ladder step down, `None` at the minimum. -/
def down : SanyoTemperatureCode → Option SanyoTemperatureCode
  | .t16 => none
  | .t17 => some .t16 | .t18 => some .t17 | .t19 => some .t18
  | .t20 => some .t19 | .t21 => some .t20 | .t22 => some .t21
  | .t23 => some .t22 | .t24 => some .t23 | .t25 => some .t24
  | .t26 => some .t25 | .t27 => some .t26 | .t28 => some .t27
  | .t29 => some .t28 | .t30 => some .t29

/-- The `SanyoTemperatureCode::up`: one ladder step up, `None` at the maximum. -/
def up : SanyoTemperatureCode → Option SanyoTemperatureCode
  | .t16 => some .t17 | .t17 => some .t18 | .t18 => some .t19
  | .t19 => some .t20 | .t20 => some .t21 | .t21 => some .t22
  | .t22 => some .t23 | .t23 => some .t24 | .t24 => some .t25
  | .t25 => some .t26 | .t26 => some .t27 | .t27 => some .t28
  | .t28 => some .t29 | .t29 => some .t30
  | .t30 => none

/-- The `SanyoTemperatureCode::items`: the 15 ladder positions in order. -/
def items : List SanyoTemperatureCode :=
  [.t16, .t17, .t18, .t19, .t20, .t21, .t22, .t23,
   .t24, .t25, .t26, .t27, .t28, .t29, .t30]

end SanyoTemperatureCode

/-- The `BASE_SEQUENCE` from mattori-home-peripherals/src/ir/sanyo/types.rs: the
17-slot byte template; the `OnceCell` slots left unset (indices 5, 6, 8, 16)
are the ones filled per command. -/
def BASE_SEQUENCE : List (Option Nat) :=
  [some 64, some 0, some 20, some 128, some 67, none, none, some 64, none,
   some 0, some 104, some 0, some 0, some 1, some 0, some 0, none]

/-- The `build_sequence`: fill the four open template slots and extract all bytes.
The source `set`s each `OnceCell` (panicking if a slot were already set -
the four indices are the `none` slots, so this never fires) and `expect`s
every cell on extraction (all 17 are set at that point); the extraction is
embedded with `Option.getD 0`, which is only ever applied to `some` cells. -/
def build_sequence (byte5 byte6 byte8 byte16 : Nat) : List Nat :=
  (((((BASE_SEQUENCE.set 5 (some byte5)).set 6 (some byte6)).set 8
        (some byte8)).set 16 (some byte16)).map (fun oc => oc.getD 0))

/-- The `sanyo_sequence` from mattori-home-peripherals/src/ir/sanyo/types.rs: the
17-byte payload for a (mode, temperature, trigger) combination.  The source
matches on `mode` and discards the result (a `todo` placeholder), so the mode
does not affect any byte.  All byte arithmetic stays below 256, so `u8`
arithmetic is exact here (proved in `sanyo_sequence_bytes_lt`). -/
def sanyo_sequence (mode : ACMode) (temperature : SanyoTemperatureCode)
    (trigger : SanyoTrigger) : List Nat :=
  let _ := mode
  build_sequence
    (match trigger with
     | .down | .up => 132
     | .off => 133
     | .on => 134)
    (24 + temperature.ind * 2)
    (match trigger with
     | .off => 3
     | .down | .on | .up => 35)
    ((match temperature with
      | .t16 | .t17 | .t18 | .t19 => 60 + temperature.ind * 2
      | .t28 | .t29 | .t30 => 54 + (temperature.ind - 12) * 2
      | _ => 53 + (temperature.ind - 4) * 2)
     + (match trigger with
        | .down | .up => 1
        | .off => 0
        | .on => 3))

/-- Modelled from the spec: the `IrFormat::encode` implementation of the
`mattori-home-peripherals` crate (the `Aeha` format used by `Sanyo`,
`type Format = Aeha`) is not present under src/ - only the trait declaration
(mattori-home-peripherals/src/ir/types.rs) and its callers are.  Per spec
section 4.2: "emit leader (8,4 cycles) once, then per byte (LSB-first) emit
mark=1 cycle and space = 1 cycle (bit 0) or 3 cycles (bit 1); append one
trailing stop mark (1 cycle) after all bytes."  This is also exactly the
pulse list the spec's Encode paragraph asserts for a single frame, so it
doubles as the spec-side reference for the src encode. -/
def spec_encode (bytes : List Nat) : List Nat :=
  [Aeha.STD_CYCLE * 8, Aeha.STD_CYCLE * 4]
    ++ bytes.flatMap (fun b =>
         (List.range 8).flatMap (fun i =>
           [Aeha.STD_CYCLE,
            if b / 2 ^ i % 2 = 0 then Aeha.STD_CYCLE else Aeha.STD_CYCLE * 3]))
    ++ [Aeha.STD_CYCLE]

/-- The `SanyoError` from mattori-home-peripherals/src/ir/sanyo.rs.  The
`EncodeError(IrEncodeError)` variant wraps that crate's `IrEncodeError`,
an empty enum, so it is uninhabited and omitted. -/
inductive SanyoError where
  | temperatureRange
deriving DecidableEq, Repr

/-- The `Sanyo` controller state: `{powered, mode, temp}`. -/
structure Sanyo where
  powered : Bool
  mode : ACMode
  temp : SanyoTemperatureCode
deriving DecidableEq, Repr

namespace Sanyo

/-- The `Sanyo::as_ir_sequence`: encode the payload for the current state and the
given trigger (via the spec-modelled peripherals encode, `spec_encode`). -/
def as_ir_sequence (s : Sanyo) (trigger : SanyoTrigger) : List Nat :=
  spec_encode (sanyo_sequence s.mode s.temp trigger)

/-- The `Sanyo::temp_up` (mattori-home-peripherals/src/ir/sanyo.rs lines 58-61):
`self.temp = self.temp.up().ok_or(TemperatureRange)?` then encode with the
`Up` trigger.  `&mut self` is embedded as result-and-new-state. -/
def temp_up (s : Sanyo) : Except SanyoError (List Nat) × Sanyo :=
  match s.temp.up with
  | none => (.error .temperatureRange, s)
  | some t =>
    let s' := { s with temp := t }
    (.ok (s'.as_ir_sequence .up), s')

/-- The `Sanyo::temp_down` (mattori-home-peripherals/src/ir/sanyo.rs lines 63-66). -/
def temp_down (s : Sanyo) : Except SanyoError (List Nat) × Sanyo :=
  match s.temp.down with
  | none => (.error .temperatureRange, s)
  | some t =>
    let s' := { s with temp := t }
    (.ok (s'.as_ir_sequence .down), s')

/-- The trigger selection of `Sanyo::temp_set` (mattori-home-peripherals/src/
ir/sanyo.rs lines 69-73): `match self.temp.cmp(&temp) { Less => Down,
Equal => return None, Greater => Up }`. -/
def temp_set_trigger (current target : SanyoTemperatureCode) :
    Option SanyoTrigger :=
  match compare current target with
  | .lt => some .down
  | .eq => none
  | .gt => some .up

/-- The `Sanyo::temp_set` (mattori-home-peripherals/src/ir/sanyo.rs lines 68-76):
choose the trigger from `cmp`, return `None` when equal, otherwise store the
target temperature and encode. -/
def temp_set (s : Sanyo) (temp : SanyoTemperatureCode) :
    Option (Except SanyoError (List Nat)) × Sanyo :=
  match temp_set_trigger s.temp temp with
  | none => (none, s)
  | some trigger =>
    let s' := { s with temp := temp }
    (some (.ok (s'.as_ir_sequence trigger)), s')

end Sanyo

/-- The `Sanyo::SEQ_LENGTH` (mattori-home-peripherals/src/ir/sanyo.rs line 42). -/
def SEQ_LENGTH : Nat := 136

end SanyoIr

namespace IrIn

/-- The `DEBOUNCE` from src/src/ir/input.rs (100 microseconds). -/
def DEBOUNCE : Nat := 100

/-- The `IrInterruptMessage` from src/src/ir/input.rs. -/
inductive IrInterruptMessage where
  | pulse (duration : Nat)
  | timeout
deriving DecidableEq, Repr

/-- One iteration of the loop inside `IrIn::debounce` (src/src/ir/input.rs
lines 172-206): given the carried `last` accumulator and the next message,
return the messages yielded and the new accumulator. -/
def debounce_step (last : Option Nat) (msg : IrInterruptMessage) :
    List IrInterruptMessage × Option Nat :=
  match msg with
  | .timeout =>
    match last with
    | some l => ([.pulse l, .timeout], none)
    | none => ([.timeout], none)
  | .pulse duration =>
    match last with
    | some l =>
      if l + duration > DEBOUNCE then ([.pulse (l + duration)], none)
      else ([], some (l + duration))
    | none =>
      if duration > DEBOUNCE then ([.pulse duration], none)
      else ([], some duration)

/-- The `IrIn::debounce` run over a finite message list, returning the yielded
messages and the final accumulator. -/
def debounce_run (last : Option Nat) :
    List IrInterruptMessage → List IrInterruptMessage × Option Nat
  | [] => ([], last)
  | m :: rest =>
    ((debounce_step last m).1 ++ (debounce_run (debounce_step last m).2 rest).1,
     (debounce_run (debounce_step last m).2 rest).2)

/-- The inner `round` helper of `IrIn::normalize`. -/
def round_to (i fac : Nat) : Nat :=
  if i % fac ≥ fac / 2 then i + (fac - i % fac) else i - i % fac

/-- The `IrIn::normalize` (src/src/ir/input.rs lines 208-225): snap a pulse
duration to the tick grid (10 microseconds below 1000, 50 below 2000,
200 otherwise). -/
def normalize (input : IrInterruptMessage) : IrInterruptMessage :=
  match input with
  | .pulse m =>
    .pulse (if m < 1000 then round_to m 10
            else if m < 2000 then round_to m 50
            else round_to m 200)
  | .timeout => .timeout

end IrIn

/-! ### Shared helper lemmas -/

namespace Aeha

/-- The even-length early return of `decode`, shared by several results. -/
theorem decode_of_even_length (data : List Nat) (h1 : 10 ≤ data.length)
    (h2 : data.length % 2 = 0) : decode data = .error .evenInputs := by
  unfold decode
  rw [if_neg (by omega), if_pos (by simp [h2])]

/-- Unfolding of the tolerance predicate into its two strict rational
inequalities. -/
theorem in_bounds_iff (l t : Nat) :
    in_bounds l t = true ↔ 13 * t < 20 * l ∧ 20 * l < 27 * t := by
  simp [in_bounds]

/-- Each byte contributes 16 pulses to the encoding. -/
theorem encode_byte_length (b : Nat) : (encode_byte b).length = 16 := rfl

/-- One unfolding of the bit loop. -/
theorem encode_bits_succ (b n : Nat) :
    encode_bits b (n + 1)
      = STD_CYCLE :: (if b % 2 == 0 then STD_CYCLE else STD_CYCLE * 3)
          :: encode_bits (b / 2) n := rfl

/-- The bit loop stops after its last iteration. -/
theorem encode_bits_zero (b : Nat) : encode_bits b 0 = [] := rfl

/-- The `decode_run` consumes complete 2-chunks one at a time. -/
theorem decode_run_pair (step : DecodeStep) (p1 p2 : Nat) (l : List Nat) :
    decode_run step (p1 :: p2 :: l) = decode_run (decode_step step (p1, some p2)) l := rfl

/-- A mark of one cycle paired with the space `encode` emits for the current
LSB is classified back as exactly that bit. -/
theorem decode_step_bit (fr : List (List Nat)) (bl : List Nat) (acc k b : Nat) :
    decode_step (.cont ⟨fr, bl, acc, k, false⟩)
        (STD_CYCLE, some (if b % 2 == 0 then STD_CYCLE else STD_CYCLE * 3))
      = .cont (push_bit ⟨fr, bl, acc, k, false⟩ (if b % 2 == 0 then 0 else 1 <<< k)) := by
  rcases Nat.mod_two_eq_zero_or_one b with h | h <;>
    simp [decode_step, h, inBoundsCycles, in_bounds, STD_CYCLE, WAIT_LENGTH, push_bit]

/-- A lone trailing stop mark of one cycle with no partial byte pending
finalizes the frame list. -/
theorem decode_run_stop (fr : List (List Nat)) (bl : List Nat) :
    decode_run (.cont ⟨fr, bl, 0, 0, false⟩) [STD_CYCLE]
      = .finished (fr ++ [bl]) := by
  simp [decode_run, decode_step, inBoundsCycles, in_bounds, STD_CYCLE]

/-- Running the decoder over the `j` encoded low bits of `b` (starting at bit
position `k`, `k + j = 8`) accumulates exactly `b * 2 ^ k` into the partial
byte and closes it. -/
theorem decode_run_bits (j : Nat) :
    ∀ (k acc b : Nat) (fr : List (List Nat)) (bl rest : List Nat),
    k + j = 8 → 1 ≤ j → b < 2 ^ j →
    decode_run (.cont ⟨fr, bl, acc, k, false⟩) (encode_bits b j ++ rest)
      = decode_run (.cont ⟨fr, bl ++ [acc + b * 2 ^ k], 0, 0, false⟩) rest := by
  induction j with
  | zero =>
    intro k acc b fr bl rest hk h1 hb
    exact absurd h1 (by omega)
  | succ j' ih =>
    intro k acc b fr bl rest hk h1 hb
    cases j' with
    | zero =>
      have hk7 : k = 7 := by omega
      subst hk7
      rw [encode_bits_succ, encode_bits_zero, List.cons_append, List.cons_append,
        List.nil_append, decode_run_pair, decode_step_bit]
      rcases Nat.mod_two_eq_zero_or_one b with h | h
      · have hb0 : b = 0 := by omega
        subst hb0
        simp [push_bit]
      · have hb1 : b = 1 := by omega
        subst hb1
        simp [push_bit]
    | succ j'' =>
      rw [encode_bits_succ, List.cons_append, List.cons_append, decode_run_pair,
        decode_step_bit]
      have hmod : (k + 1) % 8 = k + 1 := Nat.mod_eq_of_lt (by omega)
      have hdiv : b / 2 < 2 ^ (j'' + 1) := by
        rw [Nat.div_lt_iff_lt_mul (by omega : 0 < 2)]
        rw [Nat.pow_succ 2 (j'' + 1)] at hb
        omega
      rcases Nat.mod_two_eq_zero_or_one b with h | h
      · have heq : push_bit ⟨fr, bl, acc, k, false⟩ (if b % 2 == 0 then 0 else 1 <<< k)
            = DecodeState.mk fr bl acc (k + 1) false := by
          simp [push_bit, h, hmod]
        rw [heq, ih (k + 1) acc (b / 2) fr bl rest (by omega) (by omega) hdiv]
        have hbyte : acc + b / 2 * 2 ^ (k + 1) = acc + b * 2 ^ k := by
          have h2 : b / 2 * 2 = b := Nat.div_mul_cancel (Nat.dvd_of_mod_eq_zero h)
          calc acc + b / 2 * 2 ^ (k + 1) = acc + (b / 2 * 2) * 2 ^ k := by ring
            _ = acc + b * 2 ^ k := by rw [h2]
        rw [hbyte]
      · have heq : push_bit ⟨fr, bl, acc, k, false⟩ (if b % 2 == 0 then 0 else 1 <<< k)
            = DecodeState.mk fr bl (acc + 2 ^ k) (k + 1) false := by
          simp [push_bit, h, hmod, Nat.shiftLeft_eq]
        rw [heq, ih (k + 1) (acc + 2 ^ k) (b / 2) fr bl rest (by omega) (by omega) hdiv]
        have hbyte : acc + 2 ^ k + b / 2 * 2 ^ (k + 1) = acc + b * 2 ^ k := by
          have h2 : b / 2 * 2 + 1 = b := by omega
          calc acc + 2 ^ k + b / 2 * 2 ^ (k + 1)
              = acc + (b / 2 * 2 + 1) * 2 ^ k := by ring
            _ = acc + b * 2 ^ k := by rw [h2]
        rw [hbyte]

/-- Running the decoder over the encoded bit-pulses of a byte list appends
exactly those bytes to the current frame buffer. -/
theorem decode_run_bytes (bs : List Nat) :
    ∀ (fr : List (List Nat)) (bl rest : List Nat), (∀ b ∈ bs, b < 256) →
    decode_run (.cont ⟨fr, bl, 0, 0, false⟩) (bs.flatMap encode_byte ++ rest)
      = decode_run (.cont ⟨fr, bl ++ bs, 0, 0, false⟩) rest := by
  induction bs with
  | nil => intro fr bl rest _; simp
  | cons b bs' ih =>
    intro fr bl rest hb
    rw [List.flatMap_cons, List.append_assoc]
    rw [show encode_byte b = encode_bits b 8 from rfl]
    rw [decode_run_bits 8 0 0 b fr bl (bs'.flatMap encode_byte ++ rest) (by omega)
      (by omega) (hb b (by simp))]
    rw [ih fr (bl ++ [0 + b * 2 ^ 0]) rest (fun x hx => hb x (by simp [hx]))]
    simp [List.append_assoc]

/-- The `encode` written out on a single non-empty frame: the leading inter-frame
gap pulse, the leader pair, the bit pulses of each byte, one stop mark. -/
theorem encode_single (bs : List Nat) (h : bs ≠ []) :
    encode [bs] = .ok (WAIT_LENGTH :: STD_CYCLE * 8 :: STD_CYCLE * 4 ::
      (bs.flatMap encode_byte ++ [STD_CYCLE])) := by
  unfold encode encode_go
  rw [if_neg (by simp [h])]
  simp [encode_go]

/-- The data section of an encoded frame has `16 * n` pulses. -/
theorem flatMap_encode_byte_length (bs : List Nat) :
    (bs.flatMap encode_byte).length = 16 * bs.length := by
  induction bs with
  | nil => rfl
  | cons b bs' ih =>
    rw [List.flatMap_cons, List.length_append, encode_byte_length, ih,
      List.length_cons]
    ring

/-- The bit pulses of one byte, rewritten from iterated halving to the
bit-indexed form used by the spec-side pulse description. -/
theorem encode_byte_eq_spec (b : Nat) :
    encode_byte b = (List.range 8).flatMap (fun i =>
      [STD_CYCLE, if b / 2 ^ i % 2 = 0 then STD_CYCLE else STD_CYCLE * 3]) := by
  show encode_bits b 8 = _
  rw [show List.range 8 = [0, 1, 2, 3, 4, 5, 6, 7] from rfl]
  simp only [List.flatMap_cons, List.flatMap_nil, List.cons_append,
    List.nil_append, List.append_nil, encode_bits_succ, encode_bits_zero,
    beq_iff_eq, pow_zero, pow_one, Nat.div_one, Nat.div_div_eq_div_mul]
  norm_num

/-- Decoding an encoded single frame with its leading gap pulse removed
recovers the frame. -/
theorem decode_drop_encode (bs : List Nat) (hne : bs ≠ [])
    (hb : ∀ b ∈ bs, b < 256) :
    decode ((WAIT_LENGTH :: STD_CYCLE * 8 :: STD_CYCLE * 4 ::
      (bs.flatMap encode_byte ++ [STD_CYCLE])).drop 1) = .ok [bs] := by
  have hlen : (STD_CYCLE * 8 :: STD_CYCLE * 4 ::
      (bs.flatMap encode_byte ++ [STD_CYCLE])).length = 16 * bs.length + 3 := by
    simp only [List.length_cons, List.length_append, flatMap_encode_byte_length,
      List.length_nil]
  have hpos : 1 ≤ bs.length := by
    cases bs with
    | nil => exact absurd rfl hne
    | cons _ _ => simp
  rw [List.drop_one, List.tail_cons]
  unfold decode
  rw [if_neg (by rw [hlen]; omega), if_neg (by simp only [hlen, beq_iff_eq]; omega)]
  rw [List.drop_succ_cons, List.drop_succ_cons, List.drop_zero]
  rw [show initState = DecodeState.mk [] [] 0 0 false from rfl]
  rw [decode_run_bytes bs [] [] [STD_CYCLE] hb, decode_run_stop]
  rfl

end Aeha

/-- Equality of `Except` values is decidable when it is on both sides. -/
instance exceptDecidableEq {ε α : Type} [DecidableEq ε] [DecidableEq α] :
    DecidableEq (Except ε α) := fun x y =>
  match x, y with
  | .ok a, .ok b =>
    if h : a = b then .isTrue (by rw [h])
    else .isFalse (fun hc => by cases hc; exact h rfl)
  | .error a, .error b =>
    if h : a = b then .isTrue (by rw [h])
    else .isFalse (fun hc => by cases hc; exact h rfl)
  | .ok _, .error _ => .isFalse (fun hc => by cases hc)
  | .error _, .ok _ => .isFalse (fun hc => by cases hc)

namespace IrIn

/-- Accumulator form of the debounce summing behavior: starting from a
buffered sum `s`, durations whose running sums stay at or below the threshold
keep accumulating, and the first duration pushing the sum over the threshold
flushes one pulse carrying the whole sum. -/
theorem debounce_run_acc (ds : List Nat) : ∀ (s d : Nat),
    (∀ i < ds.length, s + (ds.take (i + 1)).sum ≤ DEBOUNCE) →
    DEBOUNCE < s + ds.sum + d →
    debounce_run (some s) ((ds ++ [d]).map .pulse)
      = ([.pulse (s + ds.sum + d)], none) := by
  induction ds with
  | nil =>
    intro s d _ ht
    simp only [List.sum_nil, Nat.add_zero] at ht
    simp only [List.nil_append, List.map_cons, List.map_nil, debounce_run,
      debounce_step]
    rw [if_pos (by omega)]
    simp
  | cons d1 rest ih =>
    intro s d hs ht
    have h0 : s + d1 ≤ DEBOUNCE := by
      have := hs 0 (by simp)
      simpa using this
    have hcond : ¬ s + d1 > DEBOUNCE := by omega
    simp only [List.cons_append, List.map_cons, debounce_run, debounce_step,
      if_neg hcond, List.append_eq, List.nil_append]
    rw [ih (s + d1) d
      (fun i hi => by
        have := hs (i + 1) (by simpa using Nat.succ_lt_succ hi)
        simpa [List.take_succ_cons, Nat.add_assoc] using this)
      (by simp only [List.sum_cons] at ht; omega)]
    simp only [List.sum_cons]
    congr 3
    omega

end IrIn

namespace SanyoIr

/-- The `build_sequence` written out: the four parameters land in slots
5, 6, 8 and 16 of the byte template. -/
theorem build_sequence_eq (a b c d : Nat) :
    build_sequence a b c d =
      [64, 0, 20, 128, 67, a, b, 64, c, 0, 104, 0, 0, 1, 0, 0, d] := rfl

/-- Every payload has exactly 17 bytes. -/
theorem sanyo_sequence_length (mode : ACMode) (temperature : SanyoTemperatureCode)
    (trigger : SanyoTrigger) :
    (sanyo_sequence mode temperature trigger).length = 17 := rfl

/-- The pulses `spec_encode` emits for one byte number 16. -/
theorem spec_byte_pulses_length (b : Nat) :
    ((List.range 8).flatMap (fun i =>
      [Aeha.STD_CYCLE,
       if b / 2 ^ i % 2 = 0 then Aeha.STD_CYCLE else Aeha.STD_CYCLE * 3])).length
      = 16 := rfl

/-- The `spec_encode` emits `3 + 16 * n` pulses for an `n`-byte frame. -/
theorem spec_encode_length (bytes : List Nat) :
    (spec_encode bytes).length = 3 + 16 * bytes.length := by
  induction bytes with
  | nil => rfl
  | cons b rest ih =>
    simp only [spec_encode, List.flatMap_cons, List.length_append,
      List.length_cons, List.length_nil, spec_byte_pulses_length] at ih ⊢
    omega

end SanyoIr

/-! ### Claim theorems -/

/-- C10: for every input pulse list of even length at least 10, `Aeha::decode`
returns the `EvenInputs` error - a variant absent from the spec's decode-error
taxonomy - before inspecting any pulse value (the result is the same for all
lists of such a length, whatever their pulse values). -/
theorem aeha_c10_even_inputs (data : List Nat) (h1 : 10 ≤ data.length)
    (h2 : data.length % 2 = 0) :
    Aeha.decode data = .error .evenInputs :=
  Aeha.decode_of_even_length data h1 h2

/-- Witness for C10 at a concrete ten-pulse input. -/
theorem aeha_c10_even_inputs_witness :
    Aeha.decode [1, 2, 3, 4, 5, 6, 7, 8, 9, 10] = .error .evenInputs :=
  aeha_c10_even_inputs [1, 2, 3, 4, 5, 6, 7, 8, 9, 10] (by decide) (by decide)

/-- C4 counterexample: a 19-pulse input whose first pair (425, 425) satisfies
neither `verify_leader` nor `verify_repeat` still decodes successfully
(to the single frame `[0]`), refuting the claim that `decode` fails unless
the first pair is a valid leader or repeat pair. -/
theorem aeha_c4_counterexample :
    Aeha.verify_leader 425 425 = false ∧
    Aeha.verify_repeat 425 425 = false ∧
    Aeha.decode
      [425, 425, 425, 425, 425, 425, 425, 425, 425, 425,
       425, 425, 425, 425, 425, 425, 425, 425, 425] = .ok [[0]] := by
  refine ⟨rfl, rfl, rfl⟩

/-- C4 amended: `Aeha::decode` never examines the first (mark, space) pair -
after the length checks it skips the first 2-chunk unverified, so the decode
result is independent of the first two pulse values; the
`verify_leader`/`verify_repeat` checks apply only to the pair following an
inter-frame gap. -/
theorem aeha_c4_first_pair_skipped (a b a' b' : Nat) (rest : List Nat) :
    Aeha.decode (a :: b :: rest) = Aeha.decode (a' :: b' :: rest) := by
  simp only [Aeha.decode, List.length_cons, List.drop_succ_cons, List.drop_zero]

/-- C2: the code at the failing input - with current temperature T20 and
target T25 (target strictly higher), `temp_set` selects the `Down` trigger
(`Ordering::Less` is mapped to `SanyoTrigger::Down`), not `Up` as the claim
states; it does store the target temperature. -/
theorem sanyo_c2_divergence :
    SanyoIr.Sanyo.temp_set_trigger .t20 .t25 = some .down ∧
    some SanyoIr.SanyoTrigger.down ≠ some SanyoIr.SanyoTrigger.up ∧
    (SanyoIr.Sanyo.temp_set ⟨true, .auto, .t20⟩ .t25).2.temp = .t25 := by
  refine ⟨rfl, by decide, rfl⟩

/-- C7: `temp_up` at the ladder maximum T30 and `temp_down` at the minimum T16
both return the `TemperatureRange` error and leave the whole state
`{powered, mode, temperature}` unchanged. -/
theorem sanyo_c7_boundary (s s' : SanyoIr.Sanyo)
    (hmax : s.temp = .t30) (hmin : s'.temp = .t16) :
    s.temp_up = (.error .temperatureRange, s) ∧
    s.powered = s.temp_up.2.powered ∧ s.mode = s.temp_up.2.mode ∧
    s'.temp_down = (.error .temperatureRange, s') ∧
    s'.powered = s'.temp_down.2.powered ∧ s'.mode = s'.temp_down.2.mode := by
  obtain ⟨p, m, t⟩ := s
  obtain ⟨p', m', t'⟩ := s'
  simp only at hmax hmin
  subst hmax; subst hmin
  exact ⟨rfl, rfl, rfl, rfl, rfl, rfl⟩

/-- Witness for C7 at concrete states. -/
theorem sanyo_c7_boundary_witness :
    SanyoIr.Sanyo.temp_up ⟨true, .cool, .t30⟩
        = (.error .temperatureRange, ⟨true, .cool, .t30⟩) ∧
    (true : Bool) = (SanyoIr.Sanyo.temp_up ⟨true, .cool, .t30⟩).2.powered ∧
    SanyoIr.ACMode.cool = (SanyoIr.Sanyo.temp_up ⟨true, .cool, .t30⟩).2.mode ∧
    SanyoIr.Sanyo.temp_down ⟨false, .auto, .t16⟩
        = (.error .temperatureRange, ⟨false, .auto, .t16⟩) ∧
    (false : Bool) = (SanyoIr.Sanyo.temp_down ⟨false, .auto, .t16⟩).2.powered ∧
    SanyoIr.ACMode.auto = (SanyoIr.Sanyo.temp_down ⟨false, .auto, .t16⟩).2.mode :=
  sanyo_c7_boundary ⟨true, .cool, .t30⟩ ⟨false, .auto, .t16⟩ rfl rfl

/-- C5 counterexample: the sequence produced for (Auto, T16, On) does not have
136 pulses (it has 275). -/
theorem sanyo_c5_counterexample :
    (SanyoIr.Sanyo.as_ir_sequence ⟨false, .auto, .t16⟩ .on).length ≠ SanyoIr.SEQ_LENGTH := by
  unfold SanyoIr.Sanyo.as_ir_sequence
  rw [SanyoIr.spec_encode_length, SanyoIr.sanyo_sequence_length]
  decide

/-- C5 amended: every (state, trigger) combination yields a sequence of the
same fixed length, namely 275 pulses (2 leader + 16 x 17 data + 1 stop for the
17-byte payload); the `SEQ_LENGTH` constant (136) records the payload's bit
count (17 bytes x 8), not the pulse count of the encoded sequence. -/
theorem sanyo_c5_fixed_length (s : SanyoIr.Sanyo) (trigger : SanyoIr.SanyoTrigger) :
    (s.as_ir_sequence trigger).length = 275 := by
  unfold SanyoIr.Sanyo.as_ir_sequence
  rw [SanyoIr.spec_encode_length, SanyoIr.sanyo_sequence_length]

/-- C8: in the data-pair branch of `decode`, a mark within tolerance of one
cycle classifies the paired space - within tolerance of 1 cycle as bit 0,
within tolerance of 3 cycles as bit 1, and outside both bands (without
exceeding `WAIT_LENGTH / 2`) as the `UnknownBit` error; a mark outside the
one-cycle band yields `UnknownBit` as well. -/
theorem aeha_c8_classification (s : Aeha.DecodeState) (hf : s.end_of_frame = false)
    (p1 p2 : Nat) :
    (Aeha.inBoundsCycles p1 1 = true →
      (Aeha.inBoundsCycles p2 1 = true →
        Aeha.decode_step (.cont s) (p1, some p2) = .cont (Aeha.push_bit s 0)) ∧
      (Aeha.inBoundsCycles p2 3 = true →
        Aeha.decode_step (.cont s) (p1, some p2)
          = .cont (Aeha.push_bit s (1 <<< s.bit_counter))) ∧
      (p2 ≤ Aeha.WAIT_LENGTH / 2 → Aeha.inBoundsCycles p2 1 = false →
        Aeha.inBoundsCycles p2 3 = false →
        Aeha.decode_step (.cont s) (p1, some p2) = .error .unknownBit)) ∧
    (Aeha.inBoundsCycles p1 1 = false →
      Aeha.decode_step (.cont s) (p1, some p2) = .error .unknownBit) := by
  constructor
  · intro h1
    refine ⟨?_, ?_, ?_⟩
    · intro h2
      have hgap : ¬ p2 > Aeha.WAIT_LENGTH / 2 := by
        rw [Aeha.inBoundsCycles, Aeha.in_bounds_iff] at h2
        simp only [Aeha.STD_CYCLE, Aeha.WAIT_LENGTH] at h2 ⊢
        omega
      simp [Aeha.decode_step, hf, h1, h2, hgap]
    · intro h3
      have hgap : ¬ p2 > Aeha.WAIT_LENGTH / 2 := by
        rw [Aeha.inBoundsCycles, Aeha.in_bounds_iff] at h3
        simp only [Aeha.STD_CYCLE, Aeha.WAIT_LENGTH] at h3 ⊢
        omega
      have h2 : Aeha.inBoundsCycles p2 1 = false := by
        rw [Aeha.inBoundsCycles, Aeha.in_bounds_iff] at h3
        rw [Aeha.inBoundsCycles, ← Bool.not_eq_true, Aeha.in_bounds_iff]
        simp only [Aeha.STD_CYCLE] at h3 ⊢
        omega
      simp [Aeha.decode_step, hf, h1, h2, h3, hgap]
    · intro hgap h2 h3
      simp [Aeha.decode_step, hf, h1, h2, h3, Nat.not_lt.mpr hgap]
  · intro h1
    simp [Aeha.decode_step, hf, h1]

/-- Witness for C8: with the empty initial state, the pair (425, 1275)
classifies as a 1 bit. -/
theorem aeha_c8_classification_witness :
    Aeha.decode_step (.cont Aeha.initState) (425, some 1275)
      = .cont (Aeha.push_bit Aeha.initState (1 <<< Aeha.initState.bit_counter)) :=
  ((aeha_c8_classification Aeha.initState rfl 425 1275).1 (by decide)).2.1 (by decide)

/-- C9: in the debounce stage, raw durations whose running sums stay at or
below the 100 microsecond threshold accumulate, and the duration that pushes
the running sum over the threshold flushes a single pulse carrying the whole
sum; in particular 40 then 70 coalesce into one 110 pulse, which
normalization leaves at 110. -/
theorem irin_c9_debounce (ds : List Nat) (d : Nat)
    (hpre : ∀ i < ds.length, (ds.take (i + 1)).sum ≤ IrIn.DEBOUNCE)
    (htot : IrIn.DEBOUNCE < ds.sum + d) :
    IrIn.debounce_run none ((ds ++ [d]).map .pulse)
      = ([.pulse (ds.sum + d)], none) ∧
    (IrIn.debounce_run none [.pulse 40, .pulse 70]).1.map IrIn.normalize
      = [.pulse 110] := by
  refine ⟨?_, rfl⟩
  cases ds with
  | nil =>
    simp only [List.sum_nil, Nat.zero_add] at htot
    simp only [List.nil_append, List.map_cons, List.map_nil, IrIn.debounce_run,
      IrIn.debounce_step]
    rw [if_pos (by omega)]
    simp
  | cons d1 rest =>
    have h0 : d1 ≤ IrIn.DEBOUNCE := by
      have := hpre 0 (by simp)
      simpa using this
    have hcond : ¬ d1 > IrIn.DEBOUNCE := by omega
    simp only [List.cons_append, List.map_cons, IrIn.debounce_run,
      IrIn.debounce_step, if_neg hcond, List.append_eq, List.nil_append]
    rw [IrIn.debounce_run_acc rest d1 d
      (fun i hi => by
        have := hpre (i + 1) (by simpa using Nat.succ_lt_succ hi)
        simpa [List.take_succ_cons, Nat.add_assoc] using this)
      (by simp only [List.sum_cons] at htot; omega)]
    simp only [List.sum_cons]

/-- Witness for C9: the two raw pulses 40 and 70 coalesce into one emitted
pulse of 110, and normalization keeps it at 110. -/
theorem irin_c9_debounce_witness :
    IrIn.debounce_run none [.pulse 40, .pulse 70]
      = ([.pulse 110], none) ∧
    (IrIn.debounce_run none [.pulse 40, .pulse 70]).1.map IrIn.normalize
      = [.pulse 110] := by
  have h := irin_c9_debounce [40] 70 (by decide) (by decide)
  exact ⟨h.1, h.2⟩

/-- C1 counterexample: for the single frame `[0]`, decoding the exact pulse
sequence produced by `encode` does not give back the bytes - it fails with
`EvenInputs`, because `encode` prepends a `WAIT_LENGTH` gap pulse and so emits
an even number of pulses. -/
theorem aeha_c1_counterexample :
    Aeha.encode [[0]]
      = .ok [10000, 3400, 1700, 425, 425, 425, 425, 425, 425, 425, 425,
             425, 425, 425, 425, 425, 425, 425, 425, 425] ∧
    Aeha.decode
      [10000, 3400, 1700, 425, 425, 425, 425, 425, 425, 425, 425,
       425, 425, 425, 425, 425, 425, 425, 425, 425]
      = .error .evenInputs := ⟨rfl, rfl⟩

/-- C1 amended: for every non-empty byte frame, `encode` succeeds, and
decoding its output after dropping the leading `WAIT_LENGTH` gap pulse yields
back exactly that frame; decoding the full output fails with `EvenInputs`
(its length `16 n + 4` is even). -/
theorem aeha_c1_roundtrip (bs : List Nat) (hne : bs ≠ [])
    (hb : ∀ b ∈ bs, b < 256) :
    ∃ es, Aeha.encode [bs] = .ok es ∧
      Aeha.decode (es.drop 1) = .ok [bs] ∧
      Aeha.decode es = .error .evenInputs := by
  have hpos : 1 ≤ bs.length := by
    cases bs with
    | nil => exact absurd rfl hne
    | cons _ _ => simp
  refine ⟨_, Aeha.encode_single bs hne, Aeha.decode_drop_encode bs hne hb, ?_⟩
  apply Aeha.decode_of_even_length
  · simp only [List.length_cons, List.length_append,
      Aeha.flatMap_encode_byte_length, List.length_nil]
    omega
  · simp only [List.length_cons, List.length_append,
      Aeha.flatMap_encode_byte_length, List.length_nil]
    omega

/-- Witness for C1 at the two-byte frame `[0x35, 0x8A]`. -/
theorem aeha_c1_roundtrip_witness :
    ∃ es, Aeha.encode [[53, 138]] = .ok es ∧
      Aeha.decode (es.drop 1) = .ok [[53, 138]] ∧
      Aeha.decode es = .error .evenInputs :=
  aeha_c1_roundtrip [53, 138] (by decide) (by decide)

/-- C3 counterexample: for the frame `[0]`, `encode` does not output the
leader/data/stop pulse list the claim describes - it prepends an extra
`WAIT_LENGTH` gap pulse. -/
theorem aeha_c3_counterexample :
    Aeha.encode [[0]] ≠ .ok (SanyoIr.spec_encode [0]) := by
  decide

/-- C3 amended: for every single non-empty frame, `encode` outputs exactly one
`WAIT_LENGTH` gap pulse followed by the claim's pulse list (leader mark of
8 cycles, space of 4 cycles, then per byte LSB-first a one-cycle mark and a
one- or three-cycle space, then one trailing stop mark). -/
theorem aeha_c3_encode_shape (bs : List Nat) (h : bs ≠ []) :
    Aeha.encode [bs] = .ok (Aeha.WAIT_LENGTH :: SanyoIr.spec_encode bs) := by
  rw [Aeha.encode_single bs h]
  unfold SanyoIr.spec_encode
  rw [funext Aeha.encode_byte_eq_spec]
  simp

/-- Witness for C3 at the frame `[29]`. -/
theorem aeha_c3_encode_shape_witness :
    Aeha.encode [[29]] = .ok (Aeha.WAIT_LENGTH :: SanyoIr.spec_encode [29]) :=
  aeha_c3_encode_shape [29] (by decide)

namespace SanyoIr

/-- The ladder index determines the ladder position. -/
theorem ind_inj (t1 t2 : SanyoTemperatureCode) (h : t1.ind = t2.ind) :
    t1 = t2 := by
  cases t1 <;> cases t2 <;> revert h <;> decide

/-- Payloads are non-empty. -/
theorem sanyo_sequence_ne_nil (mode : ACMode) (t : SanyoTemperatureCode)
    (trigger : SanyoTrigger) : sanyo_sequence mode t trigger ≠ [] := by
  intro h0
  have h17 := sanyo_sequence_length mode t trigger
  rw [h0] at h17
  simp at h17

/-- Every payload byte is a valid `u8` value. -/
theorem sanyo_sequence_bytes_lt (mode : ACMode) (t : SanyoTemperatureCode)
    (trigger : SanyoTrigger) : ∀ b ∈ sanyo_sequence mode t trigger, b < 256 := by
  cases mode <;> cases t <;> cases trigger <;> decide

/-- Byte 6 of every payload is `24 + 2 * index`. -/
theorem sanyo_sequence_byte6 (mode : ACMode) (t : SanyoTemperatureCode)
    (trigger : SanyoTrigger) :
    (sanyo_sequence mode t trigger)[6]? = some (24 + t.ind * 2) := rfl

/-- Payloads for distinct ladder positions differ (byte 6 is
`24 + 2 * index`). -/
theorem sanyo_sequence_inj_temp (mode : ACMode) (trigger : SanyoTrigger)
    (t1 t2 : SanyoTemperatureCode) (h : t1 ≠ t2) :
    sanyo_sequence mode t1 trigger ≠ sanyo_sequence mode t2 trigger := by
  intro he
  apply h
  apply ind_inj
  have h6 : some (24 + t1.ind * 2) = some (24 + t2.ind * 2) := by
    rw [← sanyo_sequence_byte6 mode t1 trigger,
      ← sanyo_sequence_byte6 mode t2 trigger, he]
  have h6' := Option.some.inj h6
  omega

end SanyoIr

namespace Aeha

/-- The `encode` is injective on single non-empty frames of `u8` values:
this follows from the decode round trip on the gap-stripped output. -/
theorem encode_single_inj (bs1 bs2 : List Nat) (h1 : bs1 ≠ []) (h2 : bs2 ≠ [])
    (hb1 : ∀ b ∈ bs1, b < 256) (hb2 : ∀ b ∈ bs2, b < 256)
    (he : encode [bs1] = encode [bs2]) : bs1 = bs2 := by
  rw [encode_single bs1 h1, encode_single bs2 h2] at he
  have hlist := Except.ok.inj he
  have d1 := decode_drop_encode bs1 h1 hb1
  have d2 := decode_drop_encode bs2 h2 hb2
  rw [hlist, d2] at d1
  have hx := Except.ok.inj d1
  simp only [List.cons.injEq, and_true] at hx
  exact hx.symm

end Aeha

/-- C6: for every fixed trigger (and mode) and every pair of distinct ladder
positions, the 17-byte payloads are distinct, and hence so are the encoded
pulse sequences. -/
theorem sanyo_c6_uniqueness (mode : SanyoIr.ACMode) (trigger : SanyoIr.SanyoTrigger)
    (t1 t2 : SanyoIr.SanyoTemperatureCode) (h : t1 ≠ t2) :
    SanyoIr.sanyo_sequence mode t1 trigger ≠ SanyoIr.sanyo_sequence mode t2 trigger ∧
    Aeha.encode [SanyoIr.sanyo_sequence mode t1 trigger]
      ≠ Aeha.encode [SanyoIr.sanyo_sequence mode t2 trigger] := by
  have hpay := SanyoIr.sanyo_sequence_inj_temp mode trigger t1 t2 h
  refine ⟨hpay, fun he => hpay ?_⟩
  exact Aeha.encode_single_inj _ _
    (SanyoIr.sanyo_sequence_ne_nil mode t1 trigger)
    (SanyoIr.sanyo_sequence_ne_nil mode t2 trigger)
    (SanyoIr.sanyo_sequence_bytes_lt mode t1 trigger)
    (SanyoIr.sanyo_sequence_bytes_lt mode t2 trigger) he

/-- Witness for C6 at T16 versus T17 with the On trigger. -/
theorem sanyo_c6_uniqueness_witness :
    SanyoIr.sanyo_sequence .auto .t16 .on ≠ SanyoIr.sanyo_sequence .auto .t17 .on ∧
    Aeha.encode [SanyoIr.sanyo_sequence .auto .t16 .on]
      ≠ Aeha.encode [SanyoIr.sanyo_sequence .auto .t17 .on] :=
  sanyo_c6_uniqueness .auto .on .t16 .t17 (by decide)
